import Mathlib

/-!
Verification of the tweet-tree crawler: a shallow embedding of the
token-paginated search stream (`src/search_cursor.rs`) and of the
thread-graph building loop (`src/main.rs`), together with theorems about
the claims of the specification.
-/

namespace TweetTree

/-! ## Paginated fetcher (`src/search_cursor.rs`)

The pagination metadata attached to every search page response
(`SearchResultsMeta` in the source).  `next_token` is the continuation
token; its absence is the exhaustion sentinel.  The source stores the
cursor in a field compared against the sentinel `0` when deciding
exhaustion; we model the stored token as an `Option String`, with `none`
playing the role of the sentinel. -/
structure SearchResultsMeta where
  newest_id : Nat
  oldest_id : Nat
  result_count : Nat
  next_token : Option String
  deriving Repr, DecidableEq

/-- A search page response (`SearchResults` in the source): the ordered
items plus the pagination metadata. -/
structure SearchResults (α : Type) where
  data : List α
  meta : SearchResultsMeta
  deriving Repr, DecidableEq

/-- One scripted mock-server response to a page request: either a
successfully deserialized page or a failure (transport error, or a
response whose pagination metadata is missing or malformed). -/
abbrev PageResponse (ε α : Type) := Except ε (SearchResults α)

/-- The flattening loop of `poll_next` (`src/search_cursor.rs`, lines
128-168), driven synchronously against a scripted list of page
responses, returning the sequence of yielded items (as the consumer of
the stream observes it, i.e. up to the first yielded error, after which
the consuming loop aborts) together with the number of page requests
issued.

State is exactly the state `poll_next` threads between polls:
`buf` is the not-yet-yielded tail of the buffered page iterator
(`self.iter`), `tok` the stored continuation token (`self.next_cursor`,
with `none` for the exhaustion sentinel `0`), and `server` the remaining
scripted responses.  The branches mirror the source:
  - a nonempty buffer yields its head (line 159-160);
  - an empty buffer with the sentinel stored ends the stream (line 161-162);
  - otherwise a request is issued (line 166) and, on a successful
    response, the token is stored, the items are buffered, and the first
    item is yielded -- or, when the page is empty, the stream ends at
    once (lines 135-152);
  - a failed response yields the error (line 154).
A request whose response is not scripted (`server = []`) stays pending
forever; we record the issued request and end the observable output. -/
def pollStream (buf : List α) (tok : Option String)
    (server : List (PageResponse ε α)) : List (Except ε α) × Nat :=
  match buf with
  | x :: xs =>
    let r := pollStream xs tok server
    (Except.ok x :: r.1, r.2)
  | [] =>
    match tok with
    | none => ([], 0)
    | some _ =>
      match server with
      | [] => ([], 1)
      | Except.error e :: _ => ([Except.error e], 1)
      | Except.ok resp :: rest =>
        match resp.data with
        | [] => ([], 1)
        | x :: xs =>
          let r := pollStream xs resp.meta.next_token rest
          (Except.ok x :: r.1, r.2 + 1)
  termination_by (server.length, buf.length)

/-- The full fetcher state (`CursorIter` in the source): endpoint, auth
token, stored continuation token and item buffer.  `link` and `token`
parameterize the network requests; against a fixed scripted fixture they
do not influence the responses. -/
structure CursorIter (α : Type) where
  link : String
  token : String
  next_cursor : Option String
  iter : Option (List α)

/-- Constructing a fresh fetcher (`CursorIter::new`): no buffered items
and the initial cursor `-1`, which is not the exhaustion sentinel. -/
def CursorIter.new (link tok : String) : CursorIter α :=
  { link := link, token := tok, next_cursor := some "-1", iter := none }

/-- Driving a fetcher to completion against a scripted fixture. -/
def CursorIter.run (c : CursorIter α) (server : List (PageResponse ε α)) :
    List (Except ε α) × Nat :=
  pollStream (c.iter.getD []) c.next_cursor server

/-- A freshly constructed fetcher driven against a scripted fixture. -/
def fetchAll (server : List (PageResponse ε α)) : List (Except ε α) × Nat :=
  (CursorIter.new "search" "bearer").run server

/-! ## The consumer (`src/main.rs`) -/

/-- A resolved author profile (`struct User` in the source): handle,
display name, and display color as an RGB triple. -/
structure User where
  handle : String
  name : String
  color : Nat × Nat × Nat
  deriving Repr, DecidableEq

/-- A streamed raw tweet as the consuming loop sees it: its id, its
author id and the id of the tweet it replies to.  The latter two are
optional in the wire format and are unwrapped unconditionally by the
loop (`main.rs` lines 210 and 223). -/
structure RawTweet where
  id : Nat
  author_id : Option Nat
  in_reply_to_status_id : Option Nat
  deriving Repr, DecidableEq

/-- The edge one streamed tweet contributes to the reply graph
(`graph.add_edge(prev, t.id, author_id)`, `main.rs` line 224): declared
parent to own id, weighted by the author id.  The two optional fields
have already been unwrapped whenever the loop reaches the insertion. -/
def edgeOf (t : RawTweet) : Nat × Nat × Nat :=
  (t.in_reply_to_status_id.getD 0, t.id, t.author_id.getD 0)

/-- The reply graph (`petgraph::graphmap::DiGraphMap<TweetId, UserId>`):
a node list without duplicates and a directed edge list keyed by the
ordered endpoint pair, each edge carrying a `UserId` weight. -/
structure DiGraphMap where
  nodes : List Nat
  edges : List (Nat × Nat × Nat)
  deriving Repr, DecidableEq

/-- The empty graph (`DiGraphMap::new`). -/
def DiGraphMap.empty : DiGraphMap := ⟨[], []⟩

/-- Adding a node (`DiGraphMap::add_node`): a no-op when present. -/
def DiGraphMap.add_node (g : DiGraphMap) (v : Nat) : DiGraphMap :=
  if v ∈ g.nodes then g else { g with nodes := g.nodes ++ [v] }

/-- Adding a directed weighted edge (`DiGraphMap::add_edge`): both
endpoints are inserted as nodes when absent, and an existing edge with
the same ordered endpoints has its weight replaced. -/
def DiGraphMap.add_edge (g : DiGraphMap) (a b w : Nat) : DiGraphMap :=
  let g := (g.add_node a).add_node b
  if (g.edges.find? fun e => e.1 = a ∧ e.2.1 = b).isSome then
    { g with edges := g.edges.map fun e => if e.1 = a ∧ e.2.1 = b then (a, b, w) else e }
  else
    { g with edges := g.edges ++ [(a, b, w)] }

/-- The number of edges pointing at `v`. -/
def DiGraphMap.inDegree (g : DiGraphMap) (v : Nat) : Nat :=
  (g.edges.filter fun e => e.2.1 = v).length

/-- The weight of the edge from `a` to `b`, when present. -/
def DiGraphMap.edgeWeight (g : DiGraphMap) (a b : Nat) : Option Nat :=
  (g.edges.find? fun e => e.1 = a ∧ e.2.1 = b).map fun e => e.2.2

/-- Equality of graphs as graphs: the same node set and the same
weighted edges, regardless of internal insertion order. -/
def DiGraphMap.equiv (g g' : DiGraphMap) : Prop :=
  (∀ v, v ∈ g.nodes ↔ v ∈ g'.nodes) ∧ ∀ a b, g.edgeWeight a b = g'.edgeWeight a b

/-- The mutable state of the consuming loop (`main.rs` lines 197-225):
the memoized author table `users` mapping a user id to its resolved
profile and reply count, the log of author ids sent to the network
lookup (each `User::new` call records one entry), the tweet-to-author
map `tweets`, and the reply graph. -/
structure CrawlState where
  users : Nat → Option (User × Nat)
  lookups : List Nat
  tweets : Nat → Option Nat
  graph : DiGraphMap

/-- The state just before the loop (`main.rs` lines 197-205): the root
author is looked up and inserted with count `1`, the root tweet is
recorded, and the graph holds the root node. -/
def initState (profiles : Nat → User) (rootTweetId rootUserId : Nat) : CrawlState :=
  { users := fun a => if a = rootUserId then some (profiles rootUserId, 1) else none
    lookups := [rootUserId]
    tweets := fun t => if t = rootTweetId then some rootUserId else none
    graph := DiGraphMap.empty.add_node rootTweetId }

/-- One iteration of the consuming loop (`main.rs` lines 208-225) on a
successfully fetched tweet.  `none` models a panic of one of the two
unconditional unwraps (absent `author_id`, line 210, or absent
`in_reply_to_status_id`, line 223).  `profiles` is the network lookup
oracle backing `User::new`; a cache hit does not consult it, a cache
miss records the lookup and inserts the profile with count `0`, and in
either case the count is then incremented. -/
def step (profiles : Nat → User) (s : CrawlState) (t : RawTweet) : Option CrawlState :=
  match t.author_id with
  | none => none
  | some author_id =>
    let s :=
      if (s.users author_id).isSome then
        { s with users := fun a =>
            if a = author_id then (s.users a).map (fun p => (p.1, p.2 + 1)) else s.users a }
      else
        { s with
          users := fun a =>
            if a = author_id then some (profiles author_id, 1) else s.users a
          lookups := s.lookups ++ [author_id] }
    let s := { s with tweets := fun x => if x = t.id then some author_id else s.tweets x }
    match t.in_reply_to_status_id with
    | none => none
    | some prev =>
      some { s with graph := s.graph.add_edge prev t.id author_id }

/-- The whole consuming loop over an error-free stream of raw tweets,
starting from the post-initialization state; `none` when some iteration
panics. -/
def runCrawl (profiles : Nat → User) (rootTweetId rootUserId : Nat)
    (stream : List RawTweet) : Option CrawlState :=
  stream.foldlM (step profiles) (initState profiles rootTweetId rootUserId)

/-! ## Author color resolution (`src/main.rs`, `User::new`, lines 138-159) -/

/-- The numeric value of one hexadecimal digit, when the character is
one. -/
def hexDigit? (c : Char) : Option Nat :=
  if 48 ≤ c.toNat ∧ c.toNat ≤ 57 then some (c.toNat - 48)
  else if 97 ≤ c.toNat ∧ c.toNat ≤ 102 then some (c.toNat - 97 + 10)
  else if 65 ≤ c.toNat ∧ c.toNat ≤ 70 then some (c.toNat - 65 + 10)
  else none

/-- Base-16 unsigned byte parsing (`u8::from_str_radix(s, 16)`): an
optional leading plus sign, then a nonempty run of hexadecimal digits,
rejecting values that overflow a byte. -/
def fromStrRadix16U8 (s : List Char) : Except Unit Nat :=
  let digits := match s with
    | '+' :: rest => rest
    | other => other
  if digits.isEmpty then Except.error () else
  digits.foldlM
    (fun acc c =>
      match hexDigit? c with
      | none => Except.error ()
      | some d =>
        if acc * 16 + d ≥ 256 then Except.error () else Except.ok (acc * 16 + d))
    0

/-- The color selection of `User::new` (lines 141-149): when the
profile's background color differs from the all-zero sentinel
`"000000"`, the three byte slices `c[0..2]`, `c[2..4]`, `c[4..6]` are
parsed as base-16 bytes (a parse failure propagating as an error);
otherwise the pseudo-random triple `rngColor` drawn from the thread rng
is used.  (The source slices by bytes and would panic on a string
shorter than six bytes; the claims only concern six-hex-digit strings,
where byte and character slicing agree.) -/
def userColor (profile_background_color : String) (rngColor : Nat × Nat × Nat) :
    Except Unit (Nat × Nat × Nat) :=
  if profile_background_color ≠ "000000" then
    match fromStrRadix16U8 (profile_background_color.toList.take 2) with
    | Except.error e => Except.error e
    | Except.ok r =>
      match fromStrRadix16U8 ((profile_background_color.toList.drop 2).take 2) with
      | Except.error e => Except.error e
      | Except.ok g =>
        match fromStrRadix16U8 ((profile_background_color.toList.drop 4).take 2) with
        | Except.error e => Except.error e
        | Except.ok b => Except.ok (r, g, b)
  else
    Except.ok rngColor

/-- Modelled from the spec: the claim's reading of the stored color,
"the result of parsing that value as an RGB hex triple (two hex digits
per channel)" -- defined from those words, to be compared with the
source-derived `userColor`. -/
def specRgbHexTriple (cs : List Char) : Option (Nat × Nat × Nat) :=
  match cs with
  | [c0, c1, c2, c3, c4, c5] => do
    let d0 ← hexDigit? c0
    let d1 ← hexDigit? c1
    let d2 ← hexDigit? c2
    let d3 ← hexDigit? c3
    let d4 ← hexDigit? c4
    let d5 ← hexDigit? c5
    pure (16 * d0 + d1, 16 * d2 + d3, 16 * d4 + d5)
  | _ => none

/-! ## Orchestrator pieces (`src/main.rs`, lines 162-192) -/

/-- Whole-day truncating division of a signed duration in seconds
(`chrono::Duration::num_days`, which truncates toward zero as Rust
integer division does). -/
def numDays (seconds : Int) : Int := seconds.tdiv 86400

/-- The root-post-age advisory condition (`main.rs` line 180): the
warning is printed exactly when
`Utc::now().signed_duration_since(root.created_at).num_days() >= 7`.
Times are in seconds since the epoch. -/
def rootAgeAdvisory (now createdAt : Int) : Bool :=
  7 ≤ numDays (now - createdAt)

/-- The orchestrator after a successful root fetch: computes the
advisory (which only prints a warning) and then runs the crawl.  The
pair records that the advisory has no channel into the crawl. -/
def orchestrate (now createdAt : Int) (profiles : Nat → User)
    (rootTweetId rootUserId : Nat) (stream : List RawTweet) :
    Bool × Option CrawlState :=
  (rootAgeAdvisory now createdAt, runCrawl profiles rootTweetId rootUserId stream)

/-! ## The crawl pipeline end to end -/

/-- The consuming side of the crawl (`main.rs` lines 208-209): each
successfully yielded tweet feeds one loop iteration; the first yielded
error aborts the whole crawl through the `?` operator, discarding the
state accumulated so far.  The inner `Option` is `none` when an
iteration panics, which also stops all further consumption. -/
def consumeItems (profiles : Nat → User) (s : CrawlState) :
    List (Except ε RawTweet) → Except ε (Option CrawlState)
  | [] => Except.ok (some s)
  | Except.error e :: _ => Except.error e
  | Except.ok t :: rest =>
    match step profiles s t with
    | none => Except.ok none
    | some s2 => consumeItems profiles s2 rest

/-- The crawl driven end to end against a scripted fixture: a fresh
fetcher's output is consumed starting from the post-initialization
state, paired with the number of page requests the fetcher issued. -/
def crawlAgainst (profiles : Nat → User) (rootTweetId rootUserId : Nat)
    (server : List (PageResponse ε RawTweet)) :
    Except ε (Option CrawlState) × Nat :=
  (consumeItems profiles (initState profiles rootTweetId rootUserId) (fetchAll server).1,
   (fetchAll server).2)

/-- A well-linked mock fixture: every page before the last carries a
continuation token and the final page carries none. -/
def tokenLinked : List (SearchResults α) → Bool
  | [] => true
  | [p] => p.meta.next_token.isNone
  | p :: q :: rest => p.meta.next_token.isSome && tokenLinked (q :: rest)

/-! ## Unfolding lemmas for the fetcher loop -/

theorem pollStream_nil_none (server : List (PageResponse ε α)) :
    pollStream ([] : List α) none server = ([], 0) := by
  rw [pollStream]

theorem pollStream_nil_some_nil (t : String) :
    pollStream ([] : List α) (some t) ([] : List (PageResponse ε α)) = ([], 1) := by
  rw [pollStream]

theorem pollStream_nil_some_error (t : String) (e : ε) (rest : List (PageResponse ε α)) :
    pollStream ([] : List α) (some t) (Except.error e :: rest) = ([Except.error e], 1) := by
  rw [pollStream]

theorem pollStream_nil_some_ok_nil (t : String) (resp : SearchResults α)
    (rest : List (PageResponse ε α)) (hd : resp.data = []) :
    pollStream [] (some t) (Except.ok resp :: rest) = ([], 1) := by
  rw [pollStream, hd]

theorem pollStream_nil_some_ok_cons (t : String) (resp : SearchResults α)
    (rest : List (PageResponse ε α)) (x : α) (xs : List α) (hd : resp.data = x :: xs) :
    pollStream [] (some t) (Except.ok resp :: rest) =
      (Except.ok x :: (pollStream xs resp.meta.next_token rest).1,
       (pollStream xs resp.meta.next_token rest).2 + 1) := by
  rw [pollStream, hd]

theorem pollStream_cons (x : α) (xs : List α) (tok : Option String)
    (server : List (PageResponse ε α)) :
    pollStream (x :: xs) tok server =
      (Except.ok x :: (pollStream xs tok server).1, (pollStream xs tok server).2) := by
  rw [pollStream]

/-- Draining the buffer yields its items in order, then continues. -/
theorem pollStream_buf (buf : List α) (tok : Option String)
    (server : List (PageResponse ε α)) :
    pollStream buf tok server =
      (buf.map Except.ok ++ (pollStream [] tok server).1,
       (pollStream [] tok server).2) := by
  induction buf with
  | nil => simp
  | cons x xs ih => simp [pollStream_cons, ih]

/-- On a well-linked fixture of nonempty pages, the fetcher loop yields
the concatenation of the pages' items and issues one request per page. -/
theorem pollStream_ok_pages (pages : List (SearchResults α)) (t : String)
    (hlink : tokenLinked pages = true)
    (hdata : ∀ p ∈ pages, p.data ≠ [])
    (hne : pages ≠ []) :
    pollStream [] (some t) ((pages.map Except.ok) : List (PageResponse ε α)) =
      (((pages.map (fun p => p.data)).flatten).map Except.ok, pages.length) := by
  induction pages generalizing t with
  | nil => exact absurd rfl hne
  | cons p ps ih =>
    obtain ⟨x, xs, hd⟩ : ∃ x xs, p.data = x :: xs := by
      cases hpd : p.data with
      | nil => exact absurd hpd (hdata p (by simp))
      | cons a as => exact ⟨a, as, rfl⟩
    cases ps with
    | nil =>
      have htok : p.meta.next_token = none := by
        simpa [tokenLinked, Option.isNone_iff_eq_none] using hlink
      rw [List.map_cons, List.map_nil, pollStream_nil_some_ok_cons t p [] x xs hd,
        pollStream_buf, htok, pollStream_nil_none]
      simp [hd]
    | cons q qs =>
      obtain ⟨t2, ht2⟩ : ∃ t2, p.meta.next_token = some t2 := by
        have : p.meta.next_token.isSome = true := by
          simpa [tokenLinked] using And.left (by simpa [tokenLinked] using hlink)
        exact Option.isSome_iff_exists.mp this
      have hlink2 : tokenLinked (q :: qs) = true := by
        have := (by simpa [tokenLinked] using hlink : _ ∧ tokenLinked (q :: qs) = true)
        exact this.2
      rw [List.map_cons, pollStream_nil_some_ok_cons t p _ x xs hd, pollStream_buf, ht2,
        ih t2 hlink2 (fun r hr => hdata r (List.mem_cons_of_mem p hr)) (by simp)]
      simp [hd]


/-! ## Claims about the fetcher -/

/-- C1 (amended): for a mock sequence of pages linked by continuation
tokens and ending with a page lacking one, in which every page carries
at least one item, the fetcher's flattened output is the exact
concatenation of the pages' items in page order, and the sequence ends
exactly with the draining of the final page: one request is issued per
page and none after the page lacking the token. -/
theorem fetcher_concatenates_pages (pages : List (SearchResults α))
    (hne : pages ≠ []) (hlink : tokenLinked pages = true)
    (hdata : ∀ p ∈ pages, p.data ≠ []) :
    fetchAll ((pages.map Except.ok) : List (PageResponse ε α)) =
      (((pages.map (fun p => p.data)).flatten).map Except.ok, pages.length) := by
  exact pollStream_ok_pages pages "-1" hlink hdata hne

/-- Witness for `fetcher_concatenates_pages`: a concrete well-linked
two-page fixture flattens to the concatenation of its pages' items in
two requests. -/
theorem fetcher_concatenates_pages_witness :
    tokenLinked [(⟨[1, 2], ⟨2, 1, 2, some "t1"⟩⟩ : SearchResults Nat), ⟨[3], ⟨3, 3, 1, none⟩⟩] = true ∧
    fetchAll (([Except.ok ⟨[1, 2], ⟨2, 1, 2, some "t1"⟩⟩, Except.ok ⟨[3], ⟨3, 3, 1, none⟩⟩]) :
        List (PageResponse Unit Nat)) =
      ([Except.ok 1, Except.ok 2, Except.ok 3], 2) := by
  refine ⟨rfl, ?_⟩
  have h := @fetcher_concatenates_pages Nat Unit
    [⟨[1, 2], ⟨2, 1, 2, some "t1"⟩⟩, ⟨[3], ⟨3, 3, 1, none⟩⟩]
    (by simp) rfl (by simp)
  simpa using h

/-- C1, as literally stated, fails on the code: this well-linked
fixture (first page empty but carrying a continuation token, final page
lacking one) flattens to the empty output rather than to the
concatenation of the pages' items. -/
theorem fetcher_concatenation_counterexample :
    tokenLinked [(⟨[], ⟨0, 0, 0, some "t1"⟩⟩ : SearchResults Nat), ⟨[5], ⟨5, 5, 1, none⟩⟩] = true ∧
    (fetchAll (([Except.ok ⟨[], ⟨0, 0, 0, some "t1"⟩⟩, Except.ok ⟨[5], ⟨5, 5, 1, none⟩⟩]) :
        List (PageResponse Unit Nat))).1 ≠
      ((([(⟨[], ⟨0, 0, 0, some "t1"⟩⟩ : SearchResults Nat), ⟨[5], ⟨5, 5, 1, none⟩⟩].map
          (fun p => p.data)).flatten).map Except.ok) := by
  refine ⟨rfl, ?_⟩
  rw [fetchAll, CursorIter.run, CursorIter.new]
  rw [show (Option.getD (α := List Nat) none []) = [] from rfl]
  rw [pollStream_nil_some_ok_nil "-1" _ _ rfl]
  simp

/-- C2: the code terminates the stream upon an empty page even when the
page carries a continuation token: on this fixture the output is empty
and exactly one request is issued, so the second page is never
requested despite the token `"t1"` being present. -/
theorem empty_page_with_token_terminates :
    fetchAll (([Except.ok ⟨[], ⟨0, 0, 0, some "t1"⟩⟩, Except.ok ⟨[7], ⟨7, 7, 1, none⟩⟩]) :
        List (PageResponse Unit Nat)) = ([], 1) := by
  rw [fetchAll, CursorIter.run, CursorIter.new]
  rw [show (Option.getD (α := List Nat) none []) = [] from rfl]
  exact pollStream_nil_some_ok_nil "-1" _ _ rfl

/-- C8: two independently constructed fetcher instances, whatever their
endpoint and credentials, produce identical flattened output when driven
against the same fixture of page responses: the pagination logic is
deterministic. -/
theorem pagination_deterministic (link1 tok1 link2 tok2 : String)
    (server : List (PageResponse ε α)) :
    (CursorIter.new link1 tok1 : CursorIter α).run server =
      (CursorIter.new link2 tok2 : CursorIter α).run server := rfl

/-! ## Claims about error propagation (C5) -/

/-- On a run of nonempty tokened pages followed by a failing response,
the fetcher loop yields the good items, then the error, and issues
exactly one request per good page plus the failing one -- nothing from
the remainder of the fixture is ever requested. -/
theorem pollStream_goods_then_error (goods : List (SearchResults α)) (t : String)
    (e : ε) (rest : List (PageResponse ε α))
    (hdata : ∀ p ∈ goods, p.data ≠ [])
    (htok : ∀ p ∈ goods, p.meta.next_token.isSome) :
    pollStream [] (some t) (goods.map Except.ok ++ Except.error e :: rest) =
      (((goods.map (fun p => p.data)).flatten).map Except.ok ++ [Except.error e],
       goods.length + 1) := by
  induction goods generalizing t with
  | nil => simpa using pollStream_nil_some_error t e rest
  | cons p ps ih =>
    obtain ⟨x, xs, hd⟩ : ∃ x xs, p.data = x :: xs := by
      cases hpd : p.data with
      | nil => exact absurd hpd (hdata p (by simp))
      | cons a as => exact ⟨a, as, rfl⟩
    obtain ⟨t2, ht2⟩ : ∃ t2, p.meta.next_token = some t2 :=
      Option.isSome_iff_exists.mp (htok p (by simp))
    rw [List.map_cons, List.cons_append, pollStream_nil_some_ok_cons t p _ x xs hd,
      pollStream_buf, ht2,
      ih t2 (fun r hr => hdata r (List.mem_cons_of_mem p hr))
        (fun r hr => htok r (List.mem_cons_of_mem p hr))]
    simp [hd]

/-- An iteration of the consuming loop panics exactly when the tweet
lacks its author id or its parent id (`main.rs` lines 210 and 223). -/
theorem step_isSome_iff (profiles : Nat → User) (s : CrawlState) (t : RawTweet) :
    (step profiles s t).isSome ↔
      (t.author_id.isSome ∧ t.in_reply_to_status_id.isSome) := by
  cases ha : t.author_id with
  | none => simp [step, ha]
  | some a =>
    cases hp : t.in_reply_to_status_id with
    | none => simp [step, ha, hp]
    | some prev => simp [step, ha, hp]

/-- Consuming well-formed items followed by a yielded error aborts with
exactly that error, whatever comes later and whatever state the
consumer starts from. -/
theorem consumeItems_ok_then_error (profiles : Nat → User) (items : List RawTweet)
    (e : ε) (tail : List (Except ε RawTweet)) (s : CrawlState)
    (hfields : ∀ t ∈ items, t.author_id.isSome ∧ t.in_reply_to_status_id.isSome) :
    consumeItems profiles s (items.map Except.ok ++ Except.error e :: tail) =
      Except.error e := by
  induction items generalizing s with
  | nil => simp [consumeItems]
  | cons t ts ih =>
    obtain ⟨s2, hs2⟩ : ∃ s2, step profiles s t = some s2 :=
      Option.isSome_iff_exists.mp
        ((step_isSome_iff profiles s t).mpr (hfields t (by simp)))
    rw [List.map_cons, List.cons_append]
    rw [consumeItems, hs2]
    exact ih s2 (fun r hr => hfields r (List.mem_cons_of_mem t hr))

/-- C5: when the fetcher receives a failing response (transport,
authentication or deserialization failure, including a page missing its
pagination metadata) after a run of well-formed pages, the crawl aborts
with exactly that error: no state is returned (no partial-result
salvage), and the number of page requests is that of the pages before
the failure plus the failing one -- no retry and no request beyond it,
whatever the rest of the fixture holds. -/
theorem error_aborts_crawl (goods : List (SearchResults RawTweet)) (e : ε)
    (rest : List (PageResponse ε RawTweet)) (profiles : Nat → User)
    (rootTweetId rootUserId : Nat)
    (hdata : ∀ p ∈ goods, p.data ≠ [])
    (htok : ∀ p ∈ goods, p.meta.next_token.isSome)
    (hfields : ∀ p ∈ goods, ∀ t ∈ p.data,
      t.author_id.isSome ∧ t.in_reply_to_status_id.isSome) :
    crawlAgainst profiles rootTweetId rootUserId
        (goods.map Except.ok ++ Except.error e :: rest) =
      (Except.error e, goods.length + 1) := by
  have hfetch := pollStream_goods_then_error goods "-1" e rest hdata htok
  have hflat : ∀ t ∈ (goods.map (fun p => p.data)).flatten,
      t.author_id.isSome ∧ t.in_reply_to_status_id.isSome := by
    intro t ht
    obtain ⟨l, hl, htl⟩ := List.mem_flatten.mp ht
    obtain ⟨p, hp, rfl⟩ := List.mem_map.mp hl
    exact hfields p hp t htl
  rw [crawlAgainst]
  rw [show ∀ server, fetchAll (α := RawTweet) (ε := ε) server =
      pollStream [] (some "-1") server from fun _ => rfl]
  rw [hfetch]
  rw [show ((goods.map (fun p => p.data)).flatten).map Except.ok ++ [Except.error e] =
      ((goods.map (fun p => p.data)).flatten).map Except.ok ++
        Except.error e :: ([] : List (Except ε RawTweet)) from rfl]
  rw [consumeItems_ok_then_error profiles _ e []
    (initState profiles rootTweetId rootUserId) hflat]

/-- Witness for `error_aborts_crawl`: one well-formed page, then a
malformed response, then a further (never requested) page: the crawl
aborts with the error after exactly two requests. -/
theorem error_aborts_crawl_witness :
    crawlAgainst (fun _ => ⟨"h", "n", (0, 0, 0)⟩) 1 9
        (([Except.ok ⟨[⟨2, some 9, some 1⟩], ⟨2, 2, 1, some "t"⟩⟩,
           Except.error "missing pagination metadata",
           Except.ok ⟨[⟨3, some 9, some 1⟩], ⟨3, 3, 1, none⟩⟩]) :
          List (PageResponse String RawTweet)) =
      (Except.error "missing pagination metadata", 2) := by
  have h := error_aborts_crawl
    ([⟨[⟨2, some 9, some 1⟩], ⟨2, 2, 1, some "t"⟩⟩] : List (SearchResults RawTweet))
    "missing pagination metadata"
    [Except.ok ⟨[⟨3, some 9, some 1⟩], ⟨3, 3, 1, none⟩⟩]
    (fun _ => ⟨"h", "n", (0, 0, 0)⟩) 1 9
    (by simp) (by simp) (by simp)
  simpa using h

/-! ## Descriptions of one loop iteration (`step`) -/

/-- What a successful loop iteration does to the author table and the
lookup log: the tweet's author gains one reply (looked up and inserted
first when absent), and nothing else changes. -/
theorem step_some_users (profiles : Nat → User) (s s2 : CrawlState) (t : RawTweet)
    (b : Nat) (ha : t.author_id = some b)
    (hstep : step profiles s t = some s2) :
    (∀ x, x ≠ b → s2.users x = s.users x) ∧
    s2.users b = (match s.users b with
      | some p => some (p.1, p.2 + 1)
      | none => some (profiles b, 1)) ∧
    s2.lookups = (if (s.users b).isSome then s.lookups else s.lookups ++ [b]) := by
  cases hp : t.in_reply_to_status_id with
  | none => simp [step, ha, hp] at hstep
  | some prev =>
    cases hu : s.users b with
    | none =>
      rw [step, ha] at hstep
      simp only [hu, Option.isSome_none, Bool.false_eq_true, if_false, hp] at hstep
      cases hstep
      exact ⟨fun x hx => by simp [hx], by simp [hu], by simp [hu]⟩
    | some p =>
      rw [step, ha] at hstep
      simp only [hu, Option.isSome_some, if_true, hp] at hstep
      cases hstep
      exact ⟨fun x hx => by simp [hx], by simp [hu], by simp [hu]⟩

/-- What a successful loop iteration does to the graph: exactly one
`add_edge` from the declared parent to the tweet's id, weighted by the
author. -/
theorem step_some_graph (profiles : Nat → User) (s s2 : CrawlState) (t : RawTweet)
    (hstep : step profiles s t = some s2) :
    s2.graph = s.graph.add_edge (t.in_reply_to_status_id.getD 0) t.id
      (t.author_id.getD 0) := by
  cases ha : t.author_id with
  | none => simp [step, ha] at hstep
  | some b =>
    cases hp : t.in_reply_to_status_id with
    | none => simp [step, ha, hp] at hstep
    | some prev =>
      rw [step, ha] at hstep
      by_cases hu : (s.users b).isSome
      · simp only [hu, if_true, hp] at hstep
        cases hstep
        simp [ha, hp]
      · simp only [hu, Bool.false_eq_true, if_false, hp] at hstep
        cases hstep
        simp [ha, hp]

/-! ## Claim C10: totality of the consumption loop -/

/-- C10: the consumption loop completes without panicking exactly when
every streamed post carries both an author id and a parent id; a post
lacking either makes the corresponding unconditional unwrap panic
(`main.rs` lines 210 and 223). -/
theorem crawl_totality (profiles : Nat → User) (rootTweetId rootUserId : Nat)
    (stream : List RawTweet) :
    (runCrawl profiles rootTweetId rootUserId stream).isSome ↔
      ∀ t ∈ stream, t.author_id.isSome ∧ t.in_reply_to_status_id.isSome := by
  rw [runCrawl]
  generalize initState profiles rootTweetId rootUserId = s
  induction stream generalizing s with
  | nil => simp
  | cons t ts ih =>
    rw [List.foldlM_cons]
    cases hstep : step profiles s t with
    | none =>
      have hmiss := (step_isSome_iff profiles s t).not.mp (by simp [hstep])
      rw [show ((none : Option CrawlState) >>= fun s2 =>
        List.foldlM (step profiles) s2 ts) = none from rfl]
      constructor
      · intro h; cases h
      · intro h
        exact absurd (h t (by simp)) hmiss
    | some s2 =>
      have hhit := (step_isSome_iff profiles s t).mp (by simp [hstep])
      rw [show ((some s2 : Option CrawlState) >>= fun s2 =>
        List.foldlM (step profiles) s2 ts) = List.foldlM (step profiles) s2 ts from rfl]
      rw [ih s2]
      constructor
      · intro h r hr
        rcases List.mem_cons.mp hr with rfl | hr2
        · exact hhit
        · exact h r hr2
      · intro h r hr
        exact h r (List.mem_cons_of_mem t hr)

/-! ## Author bookkeeping across the loop (claim C4) -/


/-- Once an author is cached with count `c`, the rest of the loop adds
one reply per streamed post by that author and never looks that author
up again. -/
theorem foldl_users_hit (profiles : Nat → User) (a : Nat) (stream : List RawTweet) :
    ∀ (s s' : CrawlState) (u : User) (c : Nat),
      stream.foldlM (step profiles) s = some s' →
      s.users a = some (u, c) →
      s'.users a =
        some (u, c + (stream.filter (fun t => t.author_id = some a)).length) ∧
      s'.lookups.count a = s.lookups.count a := by
  induction stream with
  | nil =>
    intro s s' u c hrun ha
    cases hrun
    simp [ha]
  | cons t ts ih =>
    intro s s' u c hrun ha
    rw [List.foldlM_cons] at hrun
    cases hstep : step profiles s t with
    | none => rw [hstep] at hrun; cases hrun
    | some s2 =>
      rw [hstep, show ((some s2 : Option CrawlState) >>= fun x =>
        List.foldlM (step profiles) x ts) =
          List.foldlM (step profiles) s2 ts from rfl] at hrun
      cases hat : t.author_id with
      | none =>
        have := (step_isSome_iff profiles s t).mp (by simp [hstep])
        simp [hat] at this
      | some b =>
        obtain ⟨hother, hself, hlook⟩ := step_some_users profiles s s2 t b hat hstep
        by_cases hba : b = a
        · rw [hba] at hat hself hlook
          rw [ha] at hself
          have h2 := ih s2 s' u (c + 1) hrun (by simpa using hself)
          have hcnt : s2.lookups.count a = s.lookups.count a := by
            rw [hlook, ha]
            simp
          refine ⟨?_, by rw [h2.2, hcnt]⟩
          rw [h2.1]
          simp [List.filter_cons, hat]
          omega
        · have h2 := ih s2 s' u c hrun
            (by rw [hother a (fun h => hba h.symm)]; exact ha)
          have hcnt : s2.lookups.count a = s.lookups.count a := by
            rw [hlook]
            by_cases hu : (s.users b).isSome
            · simp [hu]
            · simp [hu, List.count_append, List.count_singleton', hba, Ne.symm hba]
          refine ⟨?_, by rw [h2.2, hcnt]⟩
          rw [h2.1]
          simp [List.filter_cons, hat, hba]


/-- An author absent from the cache is looked up exactly once when the
first post by them arrives, entering with count `1`, and is never looked
up again; with no posts by them, nothing changes. -/
theorem foldl_users_miss (profiles : Nat → User) (a : Nat) (stream : List RawTweet) :
    ∀ (s s' : CrawlState),
      stream.foldlM (step profiles) s = some s' →
      s.users a = none →
      (if (stream.filter (fun t => t.author_id = some a)).length = 0 then
        s'.users a = none ∧ s'.lookups.count a = s.lookups.count a
      else
        s'.users a =
          some (profiles a, (stream.filter (fun t => t.author_id = some a)).length) ∧
        s'.lookups.count a = s.lookups.count a + 1) := by
  induction stream with
  | nil =>
    intro s s' hrun ha
    cases hrun
    simp [ha]
  | cons t ts ih =>
    intro s s' hrun ha
    rw [List.foldlM_cons] at hrun
    cases hstep : step profiles s t with
    | none => rw [hstep] at hrun; cases hrun
    | some s2 =>
      rw [hstep, show ((some s2 : Option CrawlState) >>= fun x =>
        List.foldlM (step profiles) x ts) =
          List.foldlM (step profiles) s2 ts from rfl] at hrun
      cases hat : t.author_id with
      | none =>
        have := (step_isSome_iff profiles s t).mp (by simp [hstep])
        simp [hat] at this
      | some b =>
        obtain ⟨hother, hself, hlook⟩ := step_some_users profiles s s2 t b hat hstep
        by_cases hba : b = a
        · rw [hba] at hat hself hlook
          rw [ha] at hself hlook
          have h2 := foldl_users_hit profiles a ts s2 s' (profiles a) 1 hrun
            (by simpa using hself)
          have hcnt : s2.lookups.count a = s.lookups.count a + 1 := by
            rw [hlook]
            simp [List.count_append, List.count_singleton']
          rw [if_neg (by simp [List.filter_cons, hat])]
          constructor
          · rw [h2.1]
            simp [List.filter_cons, hat]
            omega
          · rw [h2.2, hcnt]
        · have h2 := ih s2 s' hrun
            (by rw [hother a (fun h => hba h.symm)]; exact ha)
          have hcnt : s2.lookups.count a = s.lookups.count a := by
            rw [hlook]
            by_cases hu : (s.users b).isSome
            · simp [hu]
            · simp [hu, List.count_append, List.count_singleton', hba, Ne.symm hba]
          have hfeq : ((t :: ts).filter (fun t => t.author_id = some a)) =
              (ts.filter (fun t => t.author_id = some a)) := by
            simp [List.filter_cons, hat, hba]
          rw [hfeq]
          rw [hcnt] at h2
          exact h2

/-- C4 (amended): on a well-formed stream, every author is looked up
over the network exactly once during the whole run -- all later
resolutions are cache hits.  A NON-root author with N posts in the
stream ends with stored reply-count N; the ROOT author ends with N + 1,
because the initialization (`main.rs` line 199) counts the root post
itself before the stream is consumed. -/
theorem author_resolution (profiles : Nat → User) (rootTweetId rootUserId a : Nat)
    (stream : List RawTweet)
    (hfields : ∀ t ∈ stream, t.author_id.isSome ∧ t.in_reply_to_status_id.isSome) :
    (a = rootUserId →
      (runCrawl profiles rootTweetId rootUserId stream).map
          (fun s => (s.users a, s.lookups.count a)) =
        some (some (profiles a,
          (stream.filter (fun t => t.author_id = some a)).length + 1), 1)) ∧
    (a ≠ rootUserId → 0 < (stream.filter (fun t => t.author_id = some a)).length →
      (runCrawl profiles rootTweetId rootUserId stream).map
          (fun s => (s.users a, s.lookups.count a)) =
        some (some (profiles a,
          (stream.filter (fun t => t.author_id = some a)).length), 1)) := by
  obtain ⟨s', hs'⟩ := Option.isSome_iff_exists.mp
    ((crawl_totality profiles rootTweetId rootUserId stream).mpr hfields)
  have hrun : stream.foldlM (step profiles)
      (initState profiles rootTweetId rootUserId) = some s' := hs'
  constructor
  · intro har
    have hinit : (initState profiles rootTweetId rootUserId).users a =
        some (profiles rootUserId, 1) := by simp [initState, har]
    have h := foldl_users_hit profiles a stream _ s' (profiles rootUserId) 1 hrun hinit
    rw [hs', Option.map_some']
    rw [h.1, h.2]
    simp [initState, har, List.count_singleton]
    omega
  · intro har hN
    have hinit : (initState profiles rootTweetId rootUserId).users a = none := by
      simp [initState, har]
    have h := foldl_users_miss profiles a stream _ s' hrun hinit
    rw [if_neg (by omega)] at h
    rw [hs', Option.map_some']
    rw [h.1, h.2]
    simp [initState, List.count_singleton', har]

/-- C4, as literally stated, fails for the root author: a stream with
exactly one post authored by the root author (id `7`) leaves that
author's stored reply-count at `2`, not `1`. -/
theorem author_count_counterexample :
    (runCrawl (fun _ => ⟨"h", "n", (0, 0, 0)⟩) 1 7
        [⟨2, some 7, some 1⟩]).map (fun s => (s.users 7).map (fun p => p.2)) =
      some (some 2) ∧
    ([(⟨2, some 7, some 1⟩ : RawTweet)].filter
        (fun t => t.author_id = some 7)).length = 1 :=
  ⟨rfl, rfl⟩

/-- Witness for `author_resolution`: a non-root author (id `5`) with
two posts in the stream ends with reply-count `2` and exactly one
network lookup. -/
theorem author_resolution_witness :
    (runCrawl (fun _ => ⟨"h", "n", (0, 0, 0)⟩) 1 7
        [⟨2, some 5, some 1⟩, ⟨3, some 5, some 1⟩]).map
        (fun s => (s.users 5, s.lookups.count 5)) =
      some (some (⟨"h", "n", (0, 0, 0)⟩, 2), 1) := by
  have h := (author_resolution (fun _ => ⟨"h", "n", (0, 0, 0)⟩) 1 7 5
    [⟨2, some 5, some 1⟩, ⟨3, some 5, some 1⟩] (by simp)).2 (by decide) (by decide)
  simpa using h


/-! ## The reply graph across the loop (claims C3 and C6) -/


/-- `add_node` leaves the edge list untouched. -/
theorem DiGraphMap.add_node_edges (g : DiGraphMap) (n : Nat) :
    (g.add_node n).edges = g.edges := by
  by_cases h : n ∈ g.nodes <;> simp [DiGraphMap.add_node, h]

/-- Node membership after `add_node`. -/
theorem DiGraphMap.mem_add_node (g : DiGraphMap) (n v : Nat) :
    v ∈ (g.add_node n).nodes ↔ v ∈ g.nodes ∨ v = n := by
  by_cases h : n ∈ g.nodes
  · simp only [DiGraphMap.add_node, h, if_true]
    constructor
    · exact Or.inl
    · rintro (hv | rfl)
      · exact hv
      · exact h
  · simp [DiGraphMap.add_node, h]

/-- Node membership after `add_edge`: both endpoints are present. -/
theorem DiGraphMap.mem_add_edge (g : DiGraphMap) (a b w v : Nat) :
    v ∈ (g.add_edge a b w).nodes ↔ v ∈ g.nodes ∨ v = a ∨ v = b := by
  rw [DiGraphMap.add_edge]
  by_cases h : (((g.add_node a).add_node b).edges.find?
      fun e => e.1 = a ∧ e.2.1 = b).isSome
  · simp only [h, if_true]
    rw [show ({ (g.add_node a).add_node b with
        edges := ((g.add_node a).add_node b).edges.map fun e =>
          if e.1 = a ∧ e.2.1 = b then (a, b, w) else e } : DiGraphMap).nodes =
      (((g.add_node a).add_node b)).nodes from rfl]
    rw [DiGraphMap.mem_add_node, DiGraphMap.mem_add_node]
    tauto
  · simp only [h, Bool.false_eq_true, if_false]
    rw [show ({ (g.add_node a).add_node b with
        edges := ((g.add_node a).add_node b).edges ++ [(a, b, w)] } : DiGraphMap).nodes =
      (((g.add_node a).add_node b)).nodes from rfl]
    rw [DiGraphMap.mem_add_node, DiGraphMap.mem_add_node]
    tauto

/-- When no existing edge points at `b`, `add_edge a b w` appends a new
edge instead of overwriting one. -/
theorem DiGraphMap.add_edge_edges_of_fresh (g : DiGraphMap) (a b w : Nat)
    (hfresh : ∀ e ∈ g.edges, e.2.1 ≠ b) :
    (g.add_edge a b w).edges = g.edges ++ [(a, b, w)] := by
  have hedges : ((g.add_node a).add_node b).edges = g.edges := by
    rw [DiGraphMap.add_node_edges, DiGraphMap.add_node_edges]
  have hnone : (((g.add_node a).add_node b).edges.find?
      fun e => e.1 = a ∧ e.2.1 = b) = none := by
    rw [hedges]
    refine List.find?_eq_none.mpr fun e he => ?_
    simp only [decide_eq_true_eq]
    rintro ⟨h1, h2⟩
    exact hfresh e he h2
  rw [DiGraphMap.add_edge]
  simp only [hnone, Option.isSome_none, Bool.false_eq_true, if_false]
  rw [hedges]

/-- Over a stream of tweets with pairwise distinct ids, none of which
collides with an edge target already in the graph, the loop appends
exactly one edge per tweet, in stream order. -/
theorem foldl_graph_edges (profiles : Nat → User) (stream : List RawTweet) :
    ∀ (s s' : CrawlState),
      stream.foldlM (step profiles) s = some s' →
      (∀ t ∈ stream, ∀ e ∈ s.graph.edges, e.2.1 ≠ t.id) →
      (stream.map (fun t => t.id)).Nodup →
      s'.graph.edges = s.graph.edges ++ stream.map edgeOf := by
  induction stream with
  | nil =>
    intro s s' hrun hfresh hnodup
    cases hrun
    simp
  | cons t ts ih =>
    intro s s' hrun hfresh hnodup
    rw [List.foldlM_cons] at hrun
    cases hstep : step profiles s t with
    | none => rw [hstep] at hrun; cases hrun
    | some s2 =>
      rw [hstep, show ((some s2 : Option CrawlState) >>= fun x =>
        List.foldlM (step profiles) x ts) =
          List.foldlM (step profiles) s2 ts from rfl] at hrun
      have hg2 := step_some_graph profiles s s2 t hstep
      have hfr : ∀ e ∈ s.graph.edges, e.2.1 ≠ t.id := hfresh t (by simp)
      have h2edges : s2.graph.edges = s.graph.edges ++ [edgeOf t] := by
        rw [hg2, DiGraphMap.add_edge_edges_of_fresh _ _ _ _ hfr]
        rfl
      have hid : t.id ∉ ts.map (fun r => r.id) := by
        have := hnodup
        rw [List.map_cons, List.nodup_cons] at this
        exact this.1
      have hfresh2 : ∀ r ∈ ts, ∀ e ∈ s2.graph.edges, e.2.1 ≠ r.id := by
        intro r hr e he
        rw [h2edges] at he
        rcases List.mem_append.mp he with hes | heq
        · exact hfresh r (List.mem_cons_of_mem t hr) e hes
        · rw [List.mem_singleton.mp heq]
          show t.id ≠ r.id
          intro hcontra
          exact hid (hcontra ▸ List.mem_map_of_mem (fun r => r.id) hr)
      have hnodup2 : (ts.map (fun r => r.id)).Nodup := by
        have := hnodup
        rw [List.map_cons, List.nodup_cons] at this
        exact this.2
      rw [ih s2 s' hrun hfresh2 hnodup2, h2edges]
      simp

/-- A node is in the graph after the loop exactly when it was there
before or some streamed tweet carries it as its own id or as its
declared parent. -/
theorem foldl_graph_nodes (profiles : Nat → User) (stream : List RawTweet) :
    ∀ (s s' : CrawlState),
      stream.foldlM (step profiles) s = some s' →
      ∀ v, v ∈ s'.graph.nodes ↔ v ∈ s.graph.nodes ∨
        ∃ t ∈ stream, v = t.id ∨ t.in_reply_to_status_id = some v := by
  induction stream with
  | nil =>
    intro s s' hrun v
    cases hrun
    simp
  | cons t ts ih =>
    intro s s' hrun v
    rw [List.foldlM_cons] at hrun
    cases hstep : step profiles s t with
    | none => rw [hstep] at hrun; cases hrun
    | some s2 =>
      rw [hstep, show ((some s2 : Option CrawlState) >>= fun x =>
        List.foldlM (step profiles) x ts) =
          List.foldlM (step profiles) s2 ts from rfl] at hrun
      have hg2 := step_some_graph profiles s s2 t hstep
      obtain ⟨hpa, hpp⟩ := (step_isSome_iff profiles s t).mp (by simp [hstep])
      obtain ⟨prev, hprev⟩ := Option.isSome_iff_exists.mp hpp
      have hmem2 : ∀ x, x ∈ s2.graph.nodes ↔
          x ∈ s.graph.nodes ∨ x = prev ∨ x = t.id := by
        intro x
        rw [hg2, DiGraphMap.mem_add_edge, hprev]
        rw [show (some prev).getD 0 = prev from rfl]
      rw [ih s2 s' hrun v, hmem2 v]
      simp only [List.mem_cons]
      constructor
      · rintro ((hv | rfl | rfl) | ⟨r, hr, hP⟩)
        · exact Or.inl hv
        · exact Or.inr ⟨t, Or.inl rfl, Or.inr (by rw [hprev])⟩
        · exact Or.inr ⟨t, Or.inl rfl, Or.inl rfl⟩
        · exact Or.inr ⟨r, Or.inr hr, hP⟩
      · rintro (hv | ⟨r, (rfl | hr), hP⟩)
        · exact Or.inl (Or.inl hv)
        · rcases hP with rfl | hsome
          · exact Or.inl (Or.inr (Or.inr rfl))
          · rw [hprev] at hsome
            exact Or.inl (Or.inr (Or.inl (by
              cases hsome
              rfl)))
        · exact Or.inr ⟨r, hr, hP⟩

/-- C3: for a finite, error-free reply stream -- pairwise distinct post
ids, none equal to the root id, every declared parent being the root or
another streamed post -- the final reply graph gives every node other
than the root in-degree exactly 1, and the root in-degree 0. -/
theorem reply_graph_in_degrees (profiles : Nat → User) (rootTweetId rootUserId : Nat)
    (stream : List RawTweet)
    (hfields : ∀ t ∈ stream, t.author_id.isSome ∧ t.in_reply_to_status_id.isSome)
    (hnodup : (stream.map (fun t => t.id)).Nodup)
    (hnotroot : ∀ t ∈ stream, t.id ≠ rootTweetId)
    (hparent : ∀ t ∈ stream, ∀ v, t.in_reply_to_status_id = some v →
      v = rootTweetId ∨ ∃ r ∈ stream, v = r.id) :
    (∀ v ∈ (((runCrawl profiles rootTweetId rootUserId stream).map
        (fun s => s.graph)).getD DiGraphMap.empty).nodes,
      v ≠ rootTweetId →
      (((runCrawl profiles rootTweetId rootUserId stream).map
        (fun s => s.graph)).getD DiGraphMap.empty).inDegree v = 1) ∧
    (((runCrawl profiles rootTweetId rootUserId stream).map
        (fun s => s.graph)).getD DiGraphMap.empty).inDegree rootTweetId = 0 := by
  obtain ⟨s', hs'⟩ := Option.isSome_iff_exists.mp
    ((crawl_totality profiles rootTweetId rootUserId stream).mpr hfields)
  have hrun : stream.foldlM (step profiles)
      (initState profiles rootTweetId rootUserId) = some s' := hs'
  rw [hs']
  simp only [Option.map_some', Option.getD_some]
  have hinitedges : (initState profiles rootTweetId rootUserId).graph.edges = [] := by
    simp [initState, DiGraphMap.empty, DiGraphMap.add_node]
  have hedges : s'.graph.edges = stream.map edgeOf := by
    have h := foldl_graph_edges profiles stream _ s' hrun
      (by intro t ht e he; rw [hinitedges] at he; cases he) hnodup
    rw [h, hinitedges, List.nil_append]
  have hnodes : ∀ v, v ∈ s'.graph.nodes ↔ v = rootTweetId ∨
      ∃ t ∈ stream, v = t.id ∨ t.in_reply_to_status_id = some v := by
    intro v
    rw [foldl_graph_nodes profiles stream _ s' hrun v]
    have : v ∈ (initState profiles rootTweetId rootUserId).graph.nodes ↔
        v = rootTweetId := by
      simp [initState, DiGraphMap.empty, DiGraphMap.add_node]
    rw [this]
  have hdeg : ∀ v, s'.graph.inDegree v =
      (stream.map (fun t => t.id)).count v := by
    intro v
    rw [DiGraphMap.inDegree, hedges, List.count, List.countP_map,
      List.countP_eq_length_filter, List.filter_map, List.length_map]
    congr 1
  constructor
  · intro v hv hne
    rcases (hnodes v).mp hv with rfl | ⟨t, ht, hP⟩
    · exact absurd rfl hne
    · have hvid : v ∈ stream.map (fun t => t.id) := by
        rcases hP with rfl | hsome
        · exact List.mem_map_of_mem _ ht
        · rcases hparent t ht v hsome with rfl | ⟨r, hr, rfl⟩
          · exact absurd rfl hne
          · exact List.mem_map_of_mem _ hr
      rw [hdeg v]
      exact List.count_eq_one_of_mem hnodup hvid
  · rw [hdeg rootTweetId]
    rw [List.count_eq_zero]
    intro hmem
    obtain ⟨t, ht, hid⟩ := List.mem_map.mp hmem
    exact hnotroot t ht hid

/-- Witness for `reply_graph_in_degrees`: the end-to-end scenario of
the specification (root `100`; replies `200`, `201` to it and `300` to
`200`). -/
theorem reply_graph_in_degrees_witness :
    (∀ v ∈ (((runCrawl (fun _ => ⟨"h", "n", (0, 0, 0)⟩) 100 50
        [⟨200, some 7, some 100⟩, ⟨201, some 8, some 100⟩, ⟨300, some 7, some 200⟩]).map
        (fun s => s.graph)).getD DiGraphMap.empty).nodes,
      v ≠ 100 →
      (((runCrawl (fun _ => ⟨"h", "n", (0, 0, 0)⟩) 100 50
        [⟨200, some 7, some 100⟩, ⟨201, some 8, some 100⟩, ⟨300, some 7, some 200⟩]).map
        (fun s => s.graph)).getD DiGraphMap.empty).inDegree v = 1) ∧
    (((runCrawl (fun _ => ⟨"h", "n", (0, 0, 0)⟩) 100 50
        [⟨200, some 7, some 100⟩, ⟨201, some 8, some 100⟩, ⟨300, some 7, some 200⟩]).map
        (fun s => s.graph)).getD DiGraphMap.empty).inDegree 100 = 0 := by
  refine reply_graph_in_degrees (fun _ => ⟨"h", "n", (0, 0, 0)⟩) 100 50
    [⟨200, some 7, some 100⟩, ⟨201, some 8, some 100⟩, ⟨300, some 7, some 200⟩]
    (by decide) (by decide) (by decide) ?_
  intro t ht v hv
  fin_cases ht <;> simp_all

/-- In a graph whose edge list arose from a stream with pairwise
distinct ids, an edge weight lookup succeeds exactly on the edges the
stream contributed. -/
theorem edgeWeight_of_map_edgeOf (stream : List RawTweet) (g : DiGraphMap)
    (a b w : Nat) (hedges : g.edges = stream.map edgeOf)
    (hnodup : (stream.map (fun t => t.id)).Nodup) :
    g.edgeWeight a b = some w ↔ (a, b, w) ∈ stream.map edgeOf := by
  constructor
  · intro h
    rw [DiGraphMap.edgeWeight] at h
    obtain ⟨e, hfind, hw⟩ := Option.map_eq_some'.mp h
    have hp := List.find?_some hfind
    have hmem := List.mem_of_find?_eq_some hfind
    simp only [decide_eq_true_eq] at hp
    have : e = (a, b, w) := by
      obtain ⟨h1, h2⟩ := hp
      calc e = (e.1, e.2.1, e.2.2) := rfl
      _ = (a, b, w) := by rw [h1, h2, hw]
    rw [← this, ← hedges]
    exact hmem
  · intro h
    have hsome : (g.edges.find? fun e => e.1 = a ∧ e.2.1 = b).isSome := by
      rw [List.find?_isSome]
      exact ⟨(a, b, w), by rw [hedges]; exact h, by simp⟩
    obtain ⟨e, hfind⟩ := Option.isSome_iff_exists.mp hsome
    have hp := List.find?_some hfind
    have hmem := List.mem_of_find?_eq_some hfind
    simp only [decide_eq_true_eq] at hp
    rw [hedges] at hmem
    obtain ⟨t1, ht1, het1⟩ := List.mem_map.mp hmem
    obtain ⟨t2, ht2, het2⟩ := List.mem_map.mp h
    have hid : t1.id = t2.id := by
      have h1 : t1.id = b := by rw [show t1.id = (edgeOf t1).2.1 from rfl, het1]; exact hp.2
      have h2 : t2.id = b := by rw [show t2.id = (edgeOf t2).2.1 from rfl, het2]
      rw [h1, h2]
    have : t1 = t2 := List.inj_on_of_nodup_map hnodup ht1 ht2 hid
    rw [DiGraphMap.edgeWeight, hfind]
    rw [show e = edgeOf t1 from het1.symm, this, het2]
    rfl

/-- C6: over any two permutations of the same error-free reply stream
with pairwise distinct post ids, the builder produces the same reply
graph -- same node set, same weighted edges -- regardless of whether a
child arrived before its declared parent was itself visited. -/
theorem graph_order_independent (profiles : Nat → User) (rootTweetId rootUserId : Nat)
    (stream stream' : List RawTweet)
    (hperm : stream.Perm stream')
    (hnodup : (stream.map (fun t => t.id)).Nodup)
    (hfields : ∀ t ∈ stream, t.author_id.isSome ∧ t.in_reply_to_status_id.isSome) :
    DiGraphMap.equiv
      (((runCrawl profiles rootTweetId rootUserId stream).map
        (fun s => s.graph)).getD DiGraphMap.empty)
      (((runCrawl profiles rootTweetId rootUserId stream').map
        (fun s => s.graph)).getD DiGraphMap.empty) := by
  have hnodup' : (stream'.map (fun t => t.id)).Nodup :=
    ((hperm.map (fun t => t.id)).nodup_iff).mp hnodup
  have hfields' : ∀ t ∈ stream',
      t.author_id.isSome ∧ t.in_reply_to_status_id.isSome :=
    fun t ht => hfields t (hperm.mem_iff.mpr ht)
  obtain ⟨s1, hs1⟩ := Option.isSome_iff_exists.mp
    ((crawl_totality profiles rootTweetId rootUserId stream).mpr hfields)
  obtain ⟨s2, hs2⟩ := Option.isSome_iff_exists.mp
    ((crawl_totality profiles rootTweetId rootUserId stream').mpr hfields')
  have hrun1 : stream.foldlM (step profiles)
      (initState profiles rootTweetId rootUserId) = some s1 := hs1
  have hrun2 : stream'.foldlM (step profiles)
      (initState profiles rootTweetId rootUserId) = some s2 := hs2
  rw [hs1, hs2]
  simp only [Option.map_some', Option.getD_some]
  have hinitedges : (initState profiles rootTweetId rootUserId).graph.edges = [] := by
    simp [initState, DiGraphMap.empty, DiGraphMap.add_node]
  have hedges1 : s1.graph.edges = stream.map edgeOf := by
    have h := foldl_graph_edges profiles stream _ s1 hrun1
      (by intro t ht e he; rw [hinitedges] at he; cases he) hnodup
    rw [h, hinitedges, List.nil_append]
  have hedges2 : s2.graph.edges = stream'.map edgeOf := by
    have h := foldl_graph_edges profiles stream' _ s2 hrun2
      (by intro t ht e he; rw [hinitedges] at he; cases he) hnodup'
    rw [h, hinitedges, List.nil_append]
  constructor
  · intro v
    rw [foldl_graph_nodes profiles stream _ s1 hrun1 v,
      foldl_graph_nodes profiles stream' _ s2 hrun2 v]
    refine or_congr Iff.rfl ?_
    exact ⟨fun ⟨t, ht, h⟩ => ⟨t, hperm.mem_iff.mp ht, h⟩,
           fun ⟨t, ht, h⟩ => ⟨t, hperm.mem_iff.mpr ht, h⟩⟩
  · intro a b
    apply Option.ext
    intro w
    rw [Option.mem_def, Option.mem_def]
    rw [edgeWeight_of_map_edgeOf stream _ a b w hedges1 hnodup,
      edgeWeight_of_map_edgeOf stream' _ a b w hedges2 hnodup']
    exact (hperm.map edgeOf).mem_iff

/-- Witness for `graph_order_independent`: the specification scenario
and a reordering of it in which the grandchild `300` arrives first. -/
theorem graph_order_independent_witness :
    DiGraphMap.equiv
      (((runCrawl (fun _ => ⟨"h", "n", (0, 0, 0)⟩) 100 50
        [⟨200, some 7, some 100⟩, ⟨201, some 8, some 100⟩, ⟨300, some 7, some 200⟩]).map
        (fun s => s.graph)).getD DiGraphMap.empty)
      (((runCrawl (fun _ => ⟨"h", "n", (0, 0, 0)⟩) 100 50
        [⟨300, some 7, some 200⟩, ⟨201, some 8, some 100⟩, ⟨200, some 7, some 100⟩]).map
        (fun s => s.graph)).getD DiGraphMap.empty) :=
  graph_order_independent (fun _ => ⟨"h", "n", (0, 0, 0)⟩) 100 50
    [⟨200, some 7, some 100⟩, ⟨201, some 8, some 100⟩, ⟨300, some 7, some 200⟩]
    [⟨300, some 7, some 200⟩, ⟨201, some 8, some 100⟩, ⟨200, some 7, some 100⟩]
    (by decide) (by decide) (by decide)


/-! ## The root-age advisory (claim C7) and author colors (claim C9) -/


example (n : Nat) : Int.tdiv (Int.ofNat n) (86400 : Int) = Int.ofNat (n / 86400) := rfl
example (n : Nat) : Int.tdiv (Int.negSucc n) (86400 : Int) = -Int.ofNat ((n + 1) / 86400) := rfl

/-- The truncating day count reaches seven exactly when the duration is
at least seven days' worth of seconds, for durations of either sign. -/
theorem numDays_ge_seven_iff (d : Int) : (7 ≤ numDays d) ↔ 604800 ≤ d := by
  rw [numDays]
  cases d with
  | ofNat n =>
    rw [show Int.tdiv (Int.ofNat n) (86400 : Int) = Int.ofNat (n / 86400) from rfl]
    simp only [Int.ofNat_eq_natCast]
    constructor
    · intro h
      have h1 : (7 : Nat) ≤ n / 86400 := by exact_mod_cast h
      have h2 : 7 * 86400 ≤ n := (Nat.le_div_iff_mul_le (by omega)).mp h1
      omega
    · intro h
      have h1 : (604800 : Nat) ≤ n := by exact_mod_cast h
      have h2 : (7 : Nat) ≤ n / 86400 := (Nat.le_div_iff_mul_le (by omega)).mpr (by omega)
      exact_mod_cast h2
  | negSucc n =>
    rw [show Int.tdiv (Int.negSucc n) (86400 : Int) = -Int.ofNat ((n + 1) / 86400) from rfl]
    simp only [Int.ofNat_eq_natCast]
    rw [Int.negSucc_eq]
    constructor
    · intro h
      exfalso
      omega
    · intro h
      exfalso
      omega

/-- C7 (amended): the advisory fires exactly when the root post's age is
AT LEAST the 7-day retention window (604800 seconds), and it is
non-fatal: the crawl outcome is the same whatever the clock and the
creation time are, advisory or not. -/
theorem root_age_advisory_exact (now createdAt : Int) (profiles : Nat → User)
    (rootTweetId rootUserId : Nat) (stream : List RawTweet) :
    ((orchestrate now createdAt profiles rootTweetId rootUserId stream).1 = true ↔
      604800 ≤ now - createdAt) ∧
    (∀ now2 createdAt2 : Int,
      (orchestrate now createdAt profiles rootTweetId rootUserId stream).2 =
        (orchestrate now2 createdAt2 profiles rootTweetId rootUserId stream).2) := by
  constructor
  · show rootAgeAdvisory now createdAt = true ↔ _
    rw [rootAgeAdvisory, decide_eq_true_iff]
    exact numDays_ge_seven_iff (now - createdAt)
  · intro now2 createdAt2
    rfl

/-- C7, as literally stated, fails at the boundary: at an age of exactly
seven days the advisory fires although the age does not exceed the
window. -/
theorem root_age_advisory_counterexample :
    rootAgeAdvisory 604800 0 = true ∧ ¬ (604800 < (604800 : Int) - 0) := by
  constructor
  · rfl
  · decide

/-- A parsed hexadecimal digit is below 16. -/
theorem hexDigit?_lt (c : Char) (d : Nat) (h : hexDigit? c = some d) : d < 16 := by
  rw [hexDigit?] at h
  split at h
  · cases h; omega
  · split at h
    · cases h; omega
    · split at h
      · cases h; omega
      · cases h

/-- The plus sign (code point 43) is not a hexadecimal digit. -/
theorem hexDigit?_plus : hexDigit? (Char.ofNat 43) = none := rfl


/-- Parsing a two-hex-digit slice yields sixteen times the first digit
plus the second, and never overflows a byte. -/
theorem fromStrRadix16U8_pair (a b : Char) (da db : Nat)
    (ha : hexDigit? a = some da) (hb : hexDigit? b = some db) :
    fromStrRadix16U8 [a, b] = Except.ok (16 * da + db) := by
  have hlta : da < 16 := hexDigit?_lt a da ha
  have hltb : db < 16 := hexDigit?_lt b db hb
  have haplus : a ≠ '+' := by
    intro hcontra
    rw [hcontra, show hexDigit? '+' = none from rfl] at ha
    cases ha
  rw [fromStrRadix16U8]
  split
  · next heq => simp at heq
  · next h2 =>
    simp only [List.foldlM_cons, List.foldlM_nil, ha, hb]
    rw [if_neg (by omega)]
    rw [show ((Except.ok (0 * 16 + da) : Except Unit Nat) >>= fun acc =>
      (if acc * 16 + db ≥ 256 then Except.error () else
        Except.ok (acc * 16 + db)) >>= fun b => pure b) =
      ((if (0 * 16 + da) * 16 + db ≥ 256 then Except.error () else
        Except.ok ((0 * 16 + da) * 16 + db)) >>= fun b => pure b) from rfl]
    rw [if_neg (by omega)]
    rw [show ((Except.ok ((0 * 16 + da) * 16 + db) : Except Unit Nat) >>=
      fun b => pure b) = Except.ok ((0 * 16 + da) * 16 + db) from rfl]
    congr 1
    omega
  · intro rest h
    injection h with h1 h2
    exact haplus h1

/-- C9: when the profile's background color parses as an RGB hex triple
(two hex digits per channel) and differs from the all-zero sentinel
`"000000"`, the stored color is that parsed triple; when it equals the
sentinel, the stored color is the pseudo-random triple drawn from the
process rng. -/
theorem user_color_resolution (bg : String) (rngColor rgb : Nat × Nat × Nat)
    (hparse : specRgbHexTriple bg.toList = some rgb) :
    (bg ≠ "000000" → userColor bg rngColor = Except.ok rgb) ∧
    (bg = "000000" → userColor bg rngColor = Except.ok rngColor) := by
  constructor
  · intro hne
    rw [userColor, if_pos hne]
    generalize bg.toList = cs at hparse ⊢
    rcases cs with _ | ⟨c0, _ | ⟨c1, _ | ⟨c2, _ | ⟨c3, _ | ⟨c4,
      _ | ⟨c5, _ | ⟨c6, rest⟩⟩⟩⟩⟩⟩⟩
    · simp [specRgbHexTriple] at hparse
    · simp [specRgbHexTriple] at hparse
    · simp [specRgbHexTriple] at hparse
    · simp [specRgbHexTriple] at hparse
    · simp [specRgbHexTriple] at hparse
    · simp [specRgbHexTriple] at hparse
    · cases h0 : hexDigit? c0 with
      | none => simp [specRgbHexTriple, h0] at hparse
      | some d0 =>
      cases h1 : hexDigit? c1 with
      | none => simp [specRgbHexTriple, h0, h1] at hparse
      | some d1 =>
      cases h2 : hexDigit? c2 with
      | none => simp [specRgbHexTriple, h0, h1, h2] at hparse
      | some d2 =>
      cases h3 : hexDigit? c3 with
      | none => simp [specRgbHexTriple, h0, h1, h2, h3] at hparse
      | some d3 =>
      cases h4 : hexDigit? c4 with
      | none => simp [specRgbHexTriple, h0, h1, h2, h3, h4] at hparse
      | some d4 =>
      cases h5 : hexDigit? c5 with
      | none => simp [specRgbHexTriple, h0, h1, h2, h3, h4, h5] at hparse
      | some d5 =>
      have hrgb : (16 * d0 + d1, 16 * d2 + d3, 16 * d4 + d5) = rgb := by
        simp [specRgbHexTriple, h0, h1, h2, h3, h4, h5] at hparse
        exact hparse
      rw [show ([c0, c1, c2, c3, c4, c5].take 2) = [c0, c1] from rfl,
        show (([c0, c1, c2, c3, c4, c5].drop 2).take 2) = [c2, c3] from rfl,
        show (([c0, c1, c2, c3, c4, c5].drop 4).take 2) = [c4, c5] from rfl]
      simp only [fromStrRadix16U8_pair c0 c1 d0 d1 h0 h1,
        fromStrRadix16U8_pair c2 c3 d2 d3 h2 h3,
        fromStrRadix16U8_pair c4 c5 d4 d5 h4 h5]
      rw [hrgb]
    · simp [specRgbHexTriple] at hparse
  · intro heq
    rw [userColor, if_neg (not_not_intro heq)]

/-- Witness for `user_color_resolution`: the non-sentinel color
`"1a2b3c"` resolves to `(26, 43, 60)` whatever the rng would have
drawn. -/
theorem user_color_resolution_witness :
    "1a2b3c" ≠ "000000" ∧ userColor "1a2b3c" (1, 2, 3) = Except.ok (26, 43, 60) :=
  ⟨by decide, (user_color_resolution "1a2b3c" (1, 2, 3) (26, 43, 60) rfl).1 (by decide)⟩


end TweetTree
